import Mathlib

/-!
# Fuel (Fossil GUI front-end): RepoFile, Workspace and Version

A shallow embedding of

* `struct RepoFile` and the declaration of `class Workspace` (`src/MainWindow.h`),
* `struct Version` (`src/UpdateCheckDialog.cpp`),

and the properties the specification states about them.

Qt is an external library.  Of `QString` only the content matters here: a
`QString` is a finite sequence of code units and is embedded as a list of
characters; `length`, `indexOf`, `mid` and `right` follow the Qt documentation.
A `QFileInfo` is embedded as the record of the three accessors the source calls
on it, and `QDir(path).absolutePath()` is a parameter of the functions that call
it.
-/

set_option linter.dupNamespace false

namespace Fuel

/-! ## QString -/

/-- A `QString`, as its sequence of code units. -/
abbrev QString := List Char

/-- Search of `QString::indexOf`, at offset `i` of the original string: the first
position at which `sub` starts, `-1` when there is none. -/
def QString.indexOfFrom (sub : QString) : QString → Nat → Int
  | [], i => if sub = [] then (i : Int) else -1
  | c :: cs, i =>
    if sub.isPrefixOf (c :: cs) then (i : Int) else QString.indexOfFrom sub cs (i + 1)

/-- The call `s.indexOf(sub)`: the index of the first occurrence of `sub` in `s`, searching
forward from index 0; `-1` if `sub` is not found. -/
def QString.indexOf (s sub : QString) : Int :=
  QString.indexOfFrom sub s 0

/-- The call `s.mid(position)` (the length argument left at its default `-1`): the null
string when `position` exceeds the length, the whole string for a negative
`position`, otherwise everything from `position` on. -/
def QString.mid (s : QString) (position : Int) : QString :=
  if position > (s.length : Int) then []
  else if position < 0 then s
  else s.drop position.toNat

/-- The call `s.right(n)`: the `n` rightmost code units; the entire string when `n` is
negative or at least the length. -/
def QString.right (s : QString) (n : Int) : QString :=
  if n < 0 ∨ n ≥ (s.length : Int) then s
  else s.drop (s.length - n.toNat)

/-! ## QFileInfo -/

/-- A `QFileInfo`, as the values of the accessors `RepoFile` calls on it. -/
structure QFileInfo where
  /-- The value of `absoluteFilePath()`: the absolute path including the file name. -/
  absoluteFilePath : QString
  /-- The value of `absolutePath()`: the absolute path of the directory, without the file name. -/
  absolutePath : QString
  /-- The value of `fileName()`: the name of the file, without the path. -/
  fileName : QString
  deriving DecidableEq, Repr

/-- What `QDir(path).absolutePath()` returns for a `path` that is absolute and has no
".", ".." or doubled separator in it: the `QDir` constructor removes one trailing
separator from a path longer than one code unit, and nothing else changes. -/
def stripTrailingSeparator (path : QString) : QString :=
  if path.length > 1 ∧ path.getLast? = some '/' then path.dropLast else path

end Fuel

/-! ## RepoFile -/

/-- The enumerators of `enum RepoFile::EntryType`. -/
inductive Fuel.RepoFile.EntryType where
  | TYPE_UNKNOWN
  | TYPE_UNCHANGED
  | TYPE_EDITTED
  | TYPE_ADDED
  | TYPE_DELETED
  | TYPE_MISSING
  | TYPE_RENAMED
  | TYPE_CONFLICTED
  | TYPE_MODIFIED
  | TYPE_REPO
  | TYPE_ALL
  deriving DecidableEq, Repr

namespace Fuel

/-! The enumerator constants, with the initialisers of the enum declaration. -/

/-- Enumerator `TYPE_UNKNOWN = 1<<0`. -/
def RepoFile.TYPE_UNKNOWN : Nat := 1 <<< 0
/-- Enumerator `TYPE_UNCHANGED = 1<<1`. -/
def RepoFile.TYPE_UNCHANGED : Nat := 1 <<< 1
/-- Enumerator `TYPE_EDITTED = 1<<2`. -/
def RepoFile.TYPE_EDITTED : Nat := 1 <<< 2
/-- Enumerator `TYPE_ADDED = 1<<3`. -/
def RepoFile.TYPE_ADDED : Nat := 1 <<< 3
/-- Enumerator `TYPE_DELETED = 1<<4`. -/
def RepoFile.TYPE_DELETED : Nat := 1 <<< 4
/-- Enumerator `TYPE_MISSING = 1<<5`. -/
def RepoFile.TYPE_MISSING : Nat := 1 <<< 5
/-- Enumerator `TYPE_RENAMED = 1<<6`. -/
def RepoFile.TYPE_RENAMED : Nat := 1 <<< 6
/-- Enumerator `TYPE_CONFLICTED = 1<<7`. -/
def RepoFile.TYPE_CONFLICTED : Nat := 1 <<< 7
/-- Enumerator `TYPE_MODIFIED = TYPE_EDITTED|TYPE_ADDED|TYPE_DELETED|TYPE_MISSING|TYPE_RENAMED|TYPE_CONFLICTED`. -/
def RepoFile.TYPE_MODIFIED : Nat :=
  RepoFile.TYPE_EDITTED ||| RepoFile.TYPE_ADDED ||| RepoFile.TYPE_DELETED
    ||| RepoFile.TYPE_MISSING ||| RepoFile.TYPE_RENAMED ||| RepoFile.TYPE_CONFLICTED
/-- Enumerator `TYPE_REPO = TYPE_UNCHANGED|TYPE_MODIFIED`. -/
def RepoFile.TYPE_REPO : Nat := RepoFile.TYPE_UNCHANGED ||| RepoFile.TYPE_MODIFIED
/-- Enumerator `TYPE_ALL = TYPE_UNKNOWN|TYPE_REPO`. -/
def RepoFile.TYPE_ALL : Nat := RepoFile.TYPE_UNKNOWN ||| RepoFile.TYPE_REPO

/-- The integer value of an enumerator. -/
def RepoFile.EntryType.val : RepoFile.EntryType → Nat
  | .TYPE_UNKNOWN => RepoFile.TYPE_UNKNOWN
  | .TYPE_UNCHANGED => RepoFile.TYPE_UNCHANGED
  | .TYPE_EDITTED => RepoFile.TYPE_EDITTED
  | .TYPE_ADDED => RepoFile.TYPE_ADDED
  | .TYPE_DELETED => RepoFile.TYPE_DELETED
  | .TYPE_MISSING => RepoFile.TYPE_MISSING
  | .TYPE_RENAMED => RepoFile.TYPE_RENAMED
  | .TYPE_CONFLICTED => RepoFile.TYPE_CONFLICTED
  | .TYPE_MODIFIED => RepoFile.TYPE_MODIFIED
  | .TYPE_REPO => RepoFile.TYPE_REPO
  | .TYPE_ALL => RepoFile.TYPE_ALL

/-- The eight primitive status flags, in the order of their declaration. -/
def RepoFile.EntryType.primitives : List RepoFile.EntryType :=
  [.TYPE_UNKNOWN, .TYPE_UNCHANGED, .TYPE_EDITTED, .TYPE_ADDED, .TYPE_DELETED, .TYPE_MISSING,
    .TYPE_RENAMED, .TYPE_CONFLICTED]

/-- The positions, among the eight flag bits, of the bits set in `n`. -/
def bitsSet (n : Nat) : List Nat :=
  (List.range 8).filter (fun k => n.testBit k)

/-- A `RepoFile`: the private members of the struct. -/
structure RepoFile where
  FileInfo : QFileInfo
  /-- The member `Type` (a reserved word here, hence the underscore). -/
  Type_ : RepoFile.EntryType
  FilePath : QString
  Path : QString
  deriving DecidableEq, Repr

/-- The source's `RepoFile::isType`. -/
def RepoFile.isType (self : RepoFile) (t : RepoFile.EntryType) : Bool :=
  self.Type_.val == t.val

/-- The source's `RepoFile::setType`. -/
def RepoFile.setType (self : RepoFile) (t : RepoFile.EntryType) : RepoFile :=
  { self with Type_ := t }

/-- The source's `RepoFile::getType`. -/
def RepoFile.getType (self : RepoFile) : RepoFile.EntryType :=
  self.Type_

/-- The source's `RepoFile::getFileInfo`. -/
def RepoFile.getFileInfo (self : RepoFile) : QFileInfo :=
  self.FileInfo

/-- The source's `RepoFile::getFilePath`. -/
def RepoFile.getFilePath (self : RepoFile) : QString :=
  self.FilePath

/-- The source's `RepoFile::getFilename`. -/
def RepoFile.getFilename (self : RepoFile) : QString :=
  self.FileInfo.fileName

/-- The source's `RepoFile::getPath`. -/
def RepoFile.getPath (self : RepoFile) : QString :=
  self.Path

/-- The source's `RepoFile::getRelativeFilename`.  `qdirAbsolutePath path` stands for
`QDir(path).absolutePath()`. -/
def RepoFile.getRelativeFilename (qdirAbsolutePath : QString → QString) (self : RepoFile)
    (path : QString) : QString :=
  let abs_base_dir := qdirAbsolutePath path
  let relative := self.FileInfo.absoluteFilePath
  let index := relative.indexOf abs_base_dir
  if index < 0 then []
  else relative.right ((relative.length : Int) - (abs_base_dir.length : Int) - 1)

/-- The condition of the constructor's `Q_ASSERT(Path.indexOf(repoPath)==0)`, where
`Path` holds `FileInfo.absolutePath()`. -/
def RepoFile.ctorAssert (info : QFileInfo) (repoPath : QString) : Prop :=
  info.absolutePath.indexOf repoPath = 0

instance (info : QFileInfo) (repoPath : QString) :
    Decidable (RepoFile.ctorAssert info repoPath) := by
  unfold RepoFile.ctorAssert; infer_instance

/-- The constructor `RepoFile::RepoFile(info, type, repoPath)`: the members are
assigned in the order of the source, the two strings starting out empty.  The
`Q_ASSERT` does not change the object; its condition is `RepoFile.ctorAssert`. -/
def RepoFile.RepoFile (qdirAbsolutePath : QString → QString) (info : QFileInfo)
    (type : RepoFile.EntryType) (repoPath : QString) : RepoFile :=
  let this : Fuel.RepoFile := { FileInfo := info, Type_ := type, FilePath := [], Path := [] }
  let this := { this with FilePath := this.getRelativeFilename qdirAbsolutePath repoPath }
  let this := { this with Path := this.FileInfo.absolutePath }
  { this with Path := this.Path.mid ((repoPath.length : Int) + 1) }

/-! ## Workspace -/

/-- A primitive status flag: one of the eight members of the fixed status set. -/
abbrev PrimitiveFlag := { t : RepoFile.EntryType // t ∈ RepoFile.EntryType.primitives }

/-- The source's `Workspace::filemap_t`, a `QMap<QString, RepoFile*>`, as the list of its
(key, value) entries; the order of the list carries no meaning. -/
abbrev Workspace.filemap_t := List (QString × RepoFile)

/-- Qt's `QMap::insert(key, value)`: an entry that already has the key is replaced. -/
def Workspace.filemap_t.insert (m : Workspace.filemap_t) (key : QString) (value : RepoFile) :
    Workspace.filemap_t :=
  (key, value) :: m.filter (fun e => e.1 ≠ key)

/-- The set type `typedef QSet<QString> stringset_t`, as the list of its members. -/
abbrev stringset_t := List QString

/-- Qt's `QSet::insert(value)`. -/
def stringset_t.insert (s : stringset_t) (value : QString) : stringset_t :=
  if value ∈ s then s else value :: s

/-- The file table and the directory set of `class Workspace`.  The bridge, the
stash map and the Qt item models are left out: no property below reads them. -/
structure Workspace where
  workspaceFiles : Workspace.filemap_t
  pathSet : stringset_t
  deriving DecidableEq, Repr

/-- The source's `Workspace::getFiles`. -/
def Workspace.getFiles (self : Workspace) : Workspace.filemap_t :=
  self.workspaceFiles

/-- The source's `Workspace::getPaths`. -/
def Workspace.getPaths (self : Workspace) : stringset_t :=
  self.pathSet

/-- Modelled from the spec: the body of `Workspace::clearState` is not among the
sources (`MainWindow.h` declares it).  The spec: the workspace state is "cleared
and rebuilt on every scan; no persistence across scans". -/
def Workspace.clearState (_self : Workspace) : Workspace :=
  { workspaceFiles := [], pathSet := [] }

/-- Modelled from the spec: the classification rule of the scan, whose code is not
among the sources.  The status of a path is "the external tool's reported status
for tracked files and unknown for untracked files not matched by the ignore
pattern".  `reported` is the tool's report by relative path (`none`: not
tracked), `ignored` the match of the ignore pattern.  For an untracked file
that the pattern matches the spec names no flag; it is the parameter
`ignoredFlag`. -/
def Workspace.classify (reported : QString → Option PrimitiveFlag) (ignored : QString → Bool)
    (ignoredFlag : PrimitiveFlag) (relative : QString) : RepoFile.EntryType :=
  match reported relative with
  | some status => status.val
  | none => if ignored relative then ignoredFlag.val else RepoFile.EntryType.TYPE_UNKNOWN

/-- Modelled from the spec: the file record the scan makes for one enumerated file,
the scan's code not being among the sources.  It is a `RepoFile` built by the
constructor of the source for the workspace `root`, of the type
`Workspace.classify` gives the file's relative path. -/
def Workspace.fileRecord (qdirAbsolutePath : QString → QString) (root : QString)
    (reported : QString → Option PrimitiveFlag) (ignored : QString → Bool)
    (ignoredFlag : PrimitiveFlag) (info : QFileInfo) : RepoFile :=
  let relative :=
    (RepoFile.RepoFile qdirAbsolutePath info RepoFile.EntryType.TYPE_UNKNOWN root).getFilePath
  RepoFile.RepoFile qdirAbsolutePath info
    (Workspace.classify reported ignored ignoredFlag relative) root

/-- Modelled from the spec: the body of `Workspace::scanWorkspace` is not among the
sources (`MainWindow.h` declares it).  The spec: the state is cleared, then
"Workspace enumerates the filesystem and calls Bridge to fetch repository status"
and "merges the two into typed file records", in "a mapping from relative path to
RepoFile (unique keys)" and "a set of directory paths seen".  `entries` is the
enumeration of the files under `root`; every entry becomes the record
`Workspace.fileRecord` makes of it, stored under its relative path.  The view
filters of the declaration (`scanLocal`, `scanIgnored`, `scanModified`,
`scanUnchanged`) and the abort flag are not described by the spec; this is a scan
that runs to completion over all files. -/
def Workspace.scanWorkspace (qdirAbsolutePath : QString → QString) (self : Workspace)
    (root : QString) (entries : List QFileInfo) (reported : QString → Option PrimitiveFlag)
    (ignored : QString → Bool) (ignoredFlag : PrimitiveFlag) : Workspace :=
  entries.foldl
    (fun ws info =>
      let rf := Workspace.fileRecord qdirAbsolutePath root reported ignored ignoredFlag info
      { workspaceFiles := ws.workspaceFiles.insert rf.getFilePath rf,
        pathSet := ws.pathSet.insert rf.getPath })
    self.clearState

/-! ## Version -/

/-- The members of `struct Version`.  They are `uint` in the source and are only
compared, never computed with, so their range plays no part. -/
structure Version where
  Major : Nat
  Minor : Nat
  Build : Nat
  deriving DecidableEq, Repr

/-- The source's `Version::operator<`. -/
def Version.lt (self other : Version) : Bool :=
  if self.Major < other.Major then true
  else if self.Major > other.Major then false
  else if self.Minor < other.Minor then true
  else if self.Minor > other.Minor then false
  else if self.Build < other.Build then true
  else false

/-- The source's `Version::operator==`. -/
def Version.eq (self other : Version) : Bool :=
  self.Major == other.Major && self.Minor == other.Minor && self.Build == other.Build

/-- The lexicographic order on the triple (Major, Minor, Build), as the
specification words it: the first component that differs decides. -/
def Version.lexLt (a b : Version) : Prop :=
  a.Major < b.Major ∨
    (a.Major = b.Major ∧ (a.Minor < b.Minor ∨ (a.Minor = b.Minor ∧ a.Build < b.Build)))

/-! ## Sample data -/

/-- The file `/ws/sub/f.txt`. -/
def sampleInfo : QFileInfo :=
  { absoluteFilePath := "/ws/sub/f.txt".toList, absolutePath := "/ws/sub".toList,
    fileName := "f.txt".toList }

/-- The file `/ws/top.txt`, directly in the directory `/ws`. -/
def sampleTopInfo : QFileInfo :=
  { absoluteFilePath := "/ws/top.txt".toList, absolutePath := "/ws".toList,
    fileName := "top.txt".toList }

/-- The file `/home/ws/a.txt`, which is not under the directory `/ws`. -/
def sampleOutsideInfo : QFileInfo :=
  { absoluteFilePath := "/home/ws/a.txt".toList, absolutePath := "/home/ws".toList,
    fileName := "a.txt".toList }

/-- The file `/a.txt`, directly in the root directory `/`. -/
def sampleRootAInfo : QFileInfo :=
  { absoluteFilePath := "/a.txt".toList, absolutePath := "/".toList,
    fileName := "a.txt".toList }

/-- The file `/b.txt`, directly in the root directory `/`. -/
def sampleRootBInfo : QFileInfo :=
  { absoluteFilePath := "/b.txt".toList, absolutePath := "/".toList,
    fileName := "b.txt".toList }

/-- A report of the external tool: `sub/f.txt` is edited, nothing else is tracked. -/
def sampleReported : QString → Option PrimitiveFlag :=
  fun relative =>
    if relative = "sub/f.txt".toList then some ⟨RepoFile.EntryType.TYPE_EDITTED, by decide⟩
    else none

/-- An ignore pattern that matches no file. -/
def sampleIgnored : QString → Bool :=
  fun _ => false

end Fuel

/-! ## Theorems -/

namespace Fuel

/-! ### The status flags -/

/-- Two enumerators with the same integer value are the same enumerator. -/
theorem EntryType_val_inj (a b : RepoFile.EntryType) : a.val = b.val ↔ a = b := by
  cases a <;> cases b <;> decide

/-- An enumerator is a primitive flag exactly when one bit of its value is set. -/
theorem EntryType_primitive_iff_single_bit (t : RepoFile.EntryType) :
    t ∈ RepoFile.EntryType.primitives ↔ (bitsSet t.val).length = 1 := by
  cases t <;> decide

/-- C3: the eight primitive flags are the pairwise distinct single-bit values
1, 2, 4, ..., 128; TYPE_MODIFIED, TYPE_REPO and TYPE_ALL are the bitwise unions of
primitive flags the declaration names (TYPE_MODIFIED = 252, TYPE_ALL = 255, the
union of all eight, so no bit outside them); a primitive flag meets
TYPE_MODIFIED exactly when it is edited, added, deleted, missing, renamed or
conflicted, and every primitive flag meets TYPE_ALL. -/
theorem EntryType_flags :
    RepoFile.EntryType.primitives.map RepoFile.EntryType.val = [1, 2, 4, 8, 16, 32, 64, 128]
    ∧ (RepoFile.EntryType.primitives.map RepoFile.EntryType.val).Nodup
    ∧ (∀ t ∈ RepoFile.EntryType.primitives, ∃ k < 8, bitsSet t.val = [k] ∧ t.val = 2 ^ k)
    ∧ RepoFile.EntryType.TYPE_MODIFIED.val = 252
    ∧ RepoFile.EntryType.TYPE_ALL.val = 255
    ∧ RepoFile.EntryType.TYPE_MODIFIED.val =
        ([RepoFile.EntryType.TYPE_EDITTED, .TYPE_ADDED, .TYPE_DELETED, .TYPE_MISSING,
          .TYPE_RENAMED, .TYPE_CONFLICTED].map RepoFile.EntryType.val).foldl (· ||| ·) 0
    ∧ RepoFile.EntryType.TYPE_REPO.val =
        RepoFile.EntryType.TYPE_UNCHANGED.val ||| RepoFile.EntryType.TYPE_MODIFIED.val
    ∧ RepoFile.EntryType.TYPE_ALL.val =
        (RepoFile.EntryType.primitives.map RepoFile.EntryType.val).foldl (· ||| ·) 0
    ∧ (∀ t ∈ RepoFile.EntryType.primitives,
        (t.val &&& RepoFile.EntryType.TYPE_MODIFIED.val ≠ 0 ↔
          t ∈ [RepoFile.EntryType.TYPE_EDITTED, .TYPE_ADDED, .TYPE_DELETED, .TYPE_MISSING,
            .TYPE_RENAMED, .TYPE_CONFLICTED]))
    ∧ (∀ t ∈ RepoFile.EntryType.primitives, t.val &&& RepoFile.EntryType.TYPE_ALL.val ≠ 0) := by
  refine ⟨by decide, by decide, ?_, by decide, by decide, by decide, by decide, by decide,
    by decide, by decide⟩
  intro t ht
  cases t <;> first
    | exact absurd ht (by decide)
    | exact ⟨0, by decide⟩
    | exact ⟨1, by decide⟩
    | exact ⟨2, by decide⟩
    | exact ⟨3, by decide⟩
    | exact ⟨4, by decide⟩
    | exact ⟨5, by decide⟩
    | exact ⟨6, by decide⟩
    | exact ⟨7, by decide⟩

/-! ### isType, setType, getType -/

/-- After any sequence of `setType` calls the stored type is the last argument, or
the type the sequence started from when it is empty. -/
theorem getType_foldl_setType (ts : List RepoFile.EntryType) (f : RepoFile) :
    (ts.foldl RepoFile.setType f).getType = (ts.getLast?).getD f.getType := by
  induction ts generalizing f with
  | nil => rfl
  | cons t ts ih =>
    rw [List.foldl_cons, ih]
    cases ts with
    | nil => rfl
    | cons u us =>
      simp only [List.getLast?_cons_cons]
      cases h : (u :: us).getLast? with
      | none => simp at h
      | some v => rfl

/-- C7: `isType` is exact equality with the stored type (not a mask test); so for
a file whose type is a primitive flag, `isType` is false at TYPE_MODIFIED,
TYPE_REPO and TYPE_ALL, and true at exactly one primitive flag. -/
theorem isType_exact (f : RepoFile) (t : RepoFile.EntryType) :
    (f.isType t = true ↔ f.getType = t)
    ∧ (f.getType ∈ RepoFile.EntryType.primitives →
        f.isType RepoFile.EntryType.TYPE_MODIFIED = false
        ∧ f.isType RepoFile.EntryType.TYPE_REPO = false
        ∧ f.isType RepoFile.EntryType.TYPE_ALL = false
        ∧ ∃! p, p ∈ RepoFile.EntryType.primitives ∧ f.isType p = true) := by
  have key : ∀ u, (f.isType u = true ↔ f.getType = u) := by
    intro u
    simp only [RepoFile.isType, RepoFile.getType, beq_iff_eq]
    exact EntryType_val_inj _ _
  have nkey : ∀ u, f.getType ≠ u → f.isType u = false := by
    intro u hu
    cases h : f.isType u
    · rfl
    · exact absurd ((key u).1 h) hu
  refine ⟨key t, fun hp => ⟨?_, ?_, ?_, ?_⟩⟩
  · exact nkey _ (fun h => absurd (h ▸ hp) (by decide))
  · exact nkey _ (fun h => absurd (h ▸ hp) (by decide))
  · exact nkey _ (fun h => absurd (h ▸ hp) (by decide))
  · exact ⟨f.getType, ⟨hp, (key _).2 rfl⟩, fun p hp2 => ((key p).1 hp2.2).symm⟩

/-- Witness of C7: a file of type TYPE_EDITTED. -/
theorem isType_exact_witness :
    RepoFile.getType (RepoFile.RepoFile stripTrailingSeparator sampleInfo
        RepoFile.EntryType.TYPE_EDITTED "/ws".toList) ∈ RepoFile.EntryType.primitives
    ∧ RepoFile.isType (RepoFile.RepoFile stripTrailingSeparator sampleInfo
        RepoFile.EntryType.TYPE_EDITTED "/ws".toList) RepoFile.EntryType.TYPE_MODIFIED = false
    ∧ RepoFile.isType (RepoFile.RepoFile stripTrailingSeparator sampleInfo
        RepoFile.EntryType.TYPE_EDITTED "/ws".toList) RepoFile.EntryType.TYPE_EDITTED = true :=
  ⟨by decide,
    ((isType_exact (RepoFile.RepoFile stripTrailingSeparator sampleInfo
      RepoFile.EntryType.TYPE_EDITTED "/ws".toList) RepoFile.EntryType.TYPE_EDITTED).2
        (by decide)).1,
    (isType_exact (RepoFile.RepoFile stripTrailingSeparator sampleInfo
      RepoFile.EntryType.TYPE_EDITTED "/ws".toList) RepoFile.EntryType.TYPE_EDITTED).1.2 rfl⟩

/-- C2, as the code has it: the constructor and `setType` store the type they are
given, so the stored type is the last one given; when the constructor and every
`setType` call are given primitive flags, `getType` is a primitive flag, with
exactly one bit set. -/
theorem getType_primitive_of_primitive_arguments (qdirAbsolutePath : QString → QString)
    (info : QFileInfo) (type : RepoFile.EntryType) (repoPath : QString)
    (ts : List RepoFile.EntryType)
    (htype : type ∈ RepoFile.EntryType.primitives)
    (hts : ∀ t ∈ ts, t ∈ RepoFile.EntryType.primitives) :
    (ts.foldl RepoFile.setType (RepoFile.RepoFile qdirAbsolutePath info type repoPath)).getType
        = (ts.getLast?).getD type
    ∧ (ts.foldl RepoFile.setType (RepoFile.RepoFile qdirAbsolutePath info type repoPath)).getType
        ∈ RepoFile.EntryType.primitives
    ∧ (bitsSet (ts.foldl RepoFile.setType
        (RepoFile.RepoFile qdirAbsolutePath info type repoPath)).getType.val).length = 1 := by
  have hlast : (ts.foldl RepoFile.setType
      (RepoFile.RepoFile qdirAbsolutePath info type repoPath)).getType
        = (ts.getLast?).getD type := by
    rw [getType_foldl_setType]; rfl
  have hprim : (ts.getLast?).getD type ∈ RepoFile.EntryType.primitives := by
    cases h : ts.getLast? with
    | none => simpa using htype
    | some u => simpa using hts u (List.mem_of_getLast?_eq_some h)
  refine ⟨hlast, hlast ▸ hprim, ?_⟩
  exact (EntryType_primitive_iff_single_bit _).1 (hlast ▸ hprim)

/-- Witness of the amended C2: constructed as TYPE_UNKNOWN, then set to TYPE_ADDED
and to TYPE_MISSING. -/
theorem getType_primitive_of_primitive_arguments_witness :
    RepoFile.getType ([RepoFile.EntryType.TYPE_ADDED, RepoFile.EntryType.TYPE_MISSING].foldl
        RepoFile.setType (RepoFile.RepoFile stripTrailingSeparator sampleInfo
          RepoFile.EntryType.TYPE_UNKNOWN "/ws".toList)) = RepoFile.EntryType.TYPE_MISSING :=
  (getType_primitive_of_primitive_arguments stripTrailingSeparator sampleInfo
    RepoFile.EntryType.TYPE_UNKNOWN "/ws".toList
    [RepoFile.EntryType.TYPE_ADDED, RepoFile.EntryType.TYPE_MISSING]
    (by decide) (by decide)).1

/-- C2 as stated fails: a file constructed with the composite TYPE_MODIFIED, and a
file constructed as TYPE_UNKNOWN and then set to TYPE_ALL, store the composite
value, which is no primitive flag and has six, respectively eight, bits set. -/
theorem getType_composite_stored :
    RepoFile.getType (RepoFile.RepoFile stripTrailingSeparator sampleInfo
        RepoFile.EntryType.TYPE_MODIFIED "/ws".toList) = RepoFile.EntryType.TYPE_MODIFIED
    ∧ RepoFile.EntryType.TYPE_MODIFIED ∉ RepoFile.EntryType.primitives
    ∧ bitsSet RepoFile.EntryType.TYPE_MODIFIED.val = [2, 3, 4, 5, 6, 7]
    ∧ RepoFile.getType ([RepoFile.EntryType.TYPE_ALL].foldl RepoFile.setType
        (RepoFile.RepoFile stripTrailingSeparator sampleInfo
          RepoFile.EntryType.TYPE_UNKNOWN "/ws".toList)) = RepoFile.EntryType.TYPE_ALL
    ∧ RepoFile.EntryType.TYPE_ALL ∉ RepoFile.EntryType.primitives
    ∧ bitsSet RepoFile.EntryType.TYPE_ALL.val = [0, 1, 2, 3, 4, 5, 6, 7] := by
  decide

end Fuel

namespace Fuel

/-! ### Version -/

/-- The if-chain of `operator<` decides the lexicographic order. -/
theorem Version_lt_iff_lexLt (a b : Version) : a.lt b = true ↔ a.lexLt b := by
  simp only [Version.lt, Version.lexLt, gt_iff_lt]
  split_ifs <;> simp <;> omega

/-- The `operator==` holds when the three members are equal. -/
theorem Version_eq_iff (a b : Version) :
    a.eq b = true ↔ (a.Major = b.Major ∧ a.Minor = b.Minor ∧ a.Build = b.Build) := by
  simp only [Version.eq, Bool.and_eq_true, beq_iff_eq]
  tauto

/-- C6: `operator<` is the lexicographic order on (Major, Minor, Build); of
`a < b`, `a == b`, `b < a` exactly one holds, `==` being equality of the three
members; and `<` is transitive. -/
theorem Version_lt_strict_total_order (a b c : Version) :
    (a.lt b = true ↔ a.lexLt b)
    ∧ (a.eq b = true ↔ a = b)
    ∧ ((a.lt b = true ∧ a.eq b = false ∧ b.lt a = false)
        ∨ (a.lt b = false ∧ a.eq b = true ∧ b.lt a = false)
        ∨ (a.lt b = false ∧ a.eq b = false ∧ b.lt a = true))
    ∧ (a.lt b = true → b.lt c = true → a.lt c = true) := by
  refine ⟨Version_lt_iff_lexLt a b, ?_, ?_, ?_⟩
  · rw [Version_eq_iff]
    obtain ⟨a1, a2, a3⟩ := a
    obtain ⟨b1, b2, b3⟩ := b
    simp
  · simp only [← Bool.not_eq_true, Version_lt_iff_lexLt, Version_eq_iff, Version.lexLt]
    omega
  · simp only [Version_lt_iff_lexLt, Version.lexLt]
    omega

/-- Witness of C6: 1.2.3 < 1.3.0 < 2.0.0. -/
theorem Version_lt_strict_total_order_witness :
    Version.lt ⟨1, 2, 3⟩ ⟨1, 3, 0⟩ = true ∧ Version.lt ⟨1, 3, 0⟩ ⟨2, 0, 0⟩ = true
    ∧ Version.lt ⟨1, 2, 3⟩ ⟨2, 0, 0⟩ = true :=
  ⟨by decide, by decide,
    (Version_lt_strict_total_order ⟨1, 2, 3⟩ ⟨1, 3, 0⟩ ⟨2, 0, 0⟩).2.2.2 (by decide) (by decide)⟩

end Fuel

namespace Fuel

/-! ### QString lemmas -/

/-- A search that starts at offset `i` fails or finds an index of at least `i`. -/
theorem indexOfFrom_eq_neg_one_or_ge (sub s : QString) (i : Nat) :
    QString.indexOfFrom sub s i = -1 ∨ (i : Int) ≤ QString.indexOfFrom sub s i := by
  induction s generalizing i with
  | nil =>
    unfold QString.indexOfFrom
    split_ifs
    · exact Or.inr (le_refl _)
    · exact Or.inl rfl
  | cons c cs ih =>
    unfold QString.indexOfFrom
    split_ifs
    · exact Or.inr (le_refl _)
    · rcases ih (i + 1) with h | h
      · exact Or.inl h
      · exact Or.inr (by push_cast at h; omega)

/-- The search `indexOf` returns 0 exactly when the string starts with the searched string. -/
theorem indexOf_eq_zero_iff (s sub : QString) : s.indexOf sub = 0 ↔ sub <+: s := by
  unfold QString.indexOf
  cases s with
  | nil =>
    unfold QString.indexOfFrom
    split_ifs with h
    · simp [h]
    · simp [h]
  | cons c cs =>
    unfold QString.indexOfFrom
    split_ifs with h
    · simpa using List.isPrefixOf_iff_prefix.1 h
    · have hne : ¬ sub <+: c :: cs := fun hp => h (List.isPrefixOf_iff_prefix.2 hp)
      rcases indexOfFrom_eq_neg_one_or_ge sub cs (0 + 1) with h1 | h1
      · simp [h1, hne]
      · constructor
        · intro h0; rw [h0] at h1; norm_num at h1
        · intro hp; exact absurd hp hne

/-- A search fails exactly when the searched string occurs nowhere in the string. -/
theorem indexOfFrom_eq_neg_one_iff (sub s : QString) (i : Nat) :
    QString.indexOfFrom sub s i = -1 ↔ ¬ sub <:+: s := by
  induction s generalizing i with
  | nil =>
    unfold QString.indexOfFrom
    split_ifs with h
    · simp only [List.infix_nil, h, not_true_eq_false, iff_false]
    · simp [List.infix_nil, h]
  | cons c cs ih =>
    unfold QString.indexOfFrom
    split_ifs with h
    · have hp : sub <+: c :: cs := List.isPrefixOf_iff_prefix.1 h
      simp only [hp.isInfix, not_true_eq_false, iff_false]
    · have hne : ¬ sub <+: c :: cs := fun hp => h (List.isPrefixOf_iff_prefix.2 hp)
      rw [ih (i + 1), List.infix_cons_iff]
      tauto

/-- When the base directory occurs nowhere in the absolute file path,
`getRelativeFilename` returns the empty string. -/
theorem getRelativeFilename_not_found (qdirAbsolutePath : QString → QString) (f : RepoFile)
    (path : QString)
    (h : ¬ qdirAbsolutePath path <:+: f.FileInfo.absoluteFilePath) :
    f.getRelativeFilename qdirAbsolutePath path = [] := by
  have hidx : f.FileInfo.absoluteFilePath.indexOf (qdirAbsolutePath path) = -1 :=
    (indexOfFrom_eq_neg_one_iff _ _ 0).2 h
  simp only [RepoFile.getRelativeFilename, hidx]
  rfl

/-- A `mid` past the end of the string is empty. -/
theorem mid_length_succ (s : QString) : s.mid ((s.length : Int) + 1) = [] := by
  unfold QString.mid
  rw [if_pos (by omega)]

/-- A `mid` just behind a prefix and one more code unit gives the rest. -/
theorem mid_append_cons (b : QString) (c : Char) (d : QString) :
    (b ++ c :: d).mid ((b.length : Int) + 1) = d := by
  unfold QString.mid
  have hlen : ((b ++ c :: d).length : Int) = (b.length : Int) + 1 + d.length := by
    simp; omega
  rw [if_neg (by omega), if_neg (by omega)]
  have : ((b.length : Int) + 1).toNat = b.length + 1 := by omega
  rw [this, ← List.drop_drop]
  simp

/-- A `right`, asked for what follows a prefix and one more code unit, gives it. -/
theorem right_append_cons (b : QString) (c : Char) (d : QString) :
    (b ++ c :: d).right (((b ++ c :: d).length : Int) - (b.length : Int) - 1) = d := by
  unfold QString.right
  have hlen : ((b ++ c :: d).length : Int) = (b.length : Int) + 1 + d.length := by
    simp; omega
  have hn : ((b ++ c :: d).length : Int) - (b.length : Int) - 1 = (d.length : Int) := by omega
  rw [hn, if_neg (by omega)]
  have : (b ++ c :: d).length - (d.length : Int).toNat = b.length + 1 := by
    simp; omega
  rw [this, ← List.drop_drop]
  simp

end Fuel

namespace Fuel

/-! ### Relative paths -/

/-- The relative file name of a file whose absolute path is `base`, a separator and
`r`, when `QDir(base).absolutePath()` is `base` itself. -/
theorem getRelativeFilename_append (qdirAbsolutePath : QString → QString) (base r : QString)
    (f : RepoFile) (hbase : qdirAbsolutePath base = base)
    (hpath : f.FileInfo.absoluteFilePath = base ++ '/' :: r) :
    f.getRelativeFilename qdirAbsolutePath base = r := by
  simp only [RepoFile.getRelativeFilename, hbase, hpath]
  have h0 : QString.indexOf (base ++ '/' :: r) base = 0 :=
    (indexOf_eq_zero_iff _ _).2 (List.prefix_append _ _)
  rw [h0, if_neg (by decide)]
  exact right_append_cons base '/' r

/-- The relative file name of a file whose absolute path is the absolute base
directory `QDir(base).absolutePath()`, a separator and `r`. -/
theorem getRelativeFilename_append_absolute (qdirAbsolutePath : QString → QString)
    (base r : QString) (f : RepoFile)
    (hpath : f.FileInfo.absoluteFilePath = qdirAbsolutePath base ++ '/' :: r) :
    f.getRelativeFilename qdirAbsolutePath base = r := by
  simp only [RepoFile.getRelativeFilename, hpath]
  have h0 : QString.indexOf (qdirAbsolutePath base ++ '/' :: r) (qdirAbsolutePath base) = 0 :=
    (indexOf_eq_zero_iff _ _).2 (List.prefix_append _ _)
  rw [h0, if_neg (by decide)]
  exact right_append_cons (qdirAbsolutePath base) '/' r

/-- C4: for an absolute workspace directory B (one that `QDir(B).absolutePath()`
returns unchanged) and a file whose absolute path is B + "/" + r,
`getRelativeFilename(B)` returns r, the constructor stores r as the FilePath, and
B + "/" + getFilePath() is the absolute file path again.  It holds for every r,
the non-empty ones among them. -/
theorem getRelativeFilename_roundtrip (qdirAbsolutePath : QString → QString) (B r : QString)
    (info : QFileInfo) (type : RepoFile.EntryType)
    (hB : qdirAbsolutePath B = B)
    (hpath : info.absoluteFilePath = B ++ "/".toList ++ r) :
    (∀ f : RepoFile, f.getFileInfo = info → f.getRelativeFilename qdirAbsolutePath B = r)
    ∧ (RepoFile.RepoFile qdirAbsolutePath info type B).getRelativeFilename qdirAbsolutePath B = r
    ∧ (RepoFile.RepoFile qdirAbsolutePath info type B).getFilePath = r
    ∧ B ++ "/".toList ++ (RepoFile.RepoFile qdirAbsolutePath info type B).getFilePath
        = (RepoFile.RepoFile qdirAbsolutePath info type B).getFileInfo.absoluteFilePath := by
  have hpath2 : info.absoluteFilePath = B ++ '/' :: r := by
    rw [hpath]; simp
  have hall : ∀ f : RepoFile, f.getFileInfo = info →
      f.getRelativeFilename qdirAbsolutePath B = r := by
    intro f hf
    exact getRelativeFilename_append qdirAbsolutePath B r f hB (by
      rw [← hpath2, ← hf]; rfl)
  have hctor : (RepoFile.RepoFile qdirAbsolutePath info type B).getFilePath = r :=
    hall { FileInfo := info, Type_ := type, FilePath := [], Path := [] } rfl
  refine ⟨hall, hall _ rfl, hctor, ?_⟩
  rw [hctor]
  exact hpath.symm

/-- Witness of C4: the workspace `/ws` and the file `/ws/sub/f.txt`. -/
theorem getRelativeFilename_roundtrip_witness :
    (RepoFile.RepoFile stripTrailingSeparator sampleInfo RepoFile.EntryType.TYPE_UNKNOWN
        "/ws".toList).getFilePath = "sub/f.txt".toList :=
  (getRelativeFilename_roundtrip stripTrailingSeparator "/ws".toList "sub/f.txt".toList
    sampleInfo RepoFile.EntryType.TYPE_UNKNOWN (by decide) (by decide)).2.2.1

/-- Where the constructor's Path is right: when the constructor's assertion holds
for `B`, `getPath()` is empty for a file directly in `B` and is `d` for a file in the
directory `B + "/" + d`; and when moreover `QDir(B).absolutePath()` is `B` itself
and the file is not directly in `B`, `getFilePath()` is
`getPath() + "/" + getFilename()` (the absolute file path being the directory, a
separator and the file name). -/
theorem getPath_relative_directory (qdirAbsolutePath : QString → QString) (info : QFileInfo)
    (type : RepoFile.EntryType) (B : QString)
    (hassert : RepoFile.ctorAssert info B) :
    (info.absolutePath = B → (RepoFile.RepoFile qdirAbsolutePath info type B).getPath = [])
    ∧ (∀ d, info.absolutePath = B ++ "/".toList ++ d →
        (RepoFile.RepoFile qdirAbsolutePath info type B).getPath = d)
    ∧ (qdirAbsolutePath B = B → info.absolutePath ≠ B →
        info.absoluteFilePath = info.absolutePath ++ "/".toList ++ info.fileName →
        (RepoFile.RepoFile qdirAbsolutePath info type B).getFilePath
          = (RepoFile.RepoFile qdirAbsolutePath info type B).getPath ++ "/".toList
              ++ (RepoFile.RepoFile qdirAbsolutePath info type B).getFilename) := by
  have hpathdef : (RepoFile.RepoFile qdirAbsolutePath info type B).getPath
      = info.absolutePath.mid ((B.length : Int) + 1) := rfl
  refine ⟨?_, ?_, ?_⟩
  · intro h
    rw [hpathdef, h]
    exact mid_length_succ B
  · intro d h
    rw [hpathdef, h]
    have : B ++ "/".toList ++ d = B ++ '/' :: d := by simp
    rw [this]
    exact mid_append_cons B '/' d
  · intro hB hne hinfo
    obtain ⟨x, hx⟩ := (indexOf_eq_zero_iff _ _).1 hassert
    cases x with
    | nil => exact absurd (by simpa using hx.symm) hne
    | cons c x =>
      have hfile : info.absoluteFilePath = B ++ c :: (x ++ '/' :: info.fileName) := by
        rw [hinfo, ← hx]; simp
      have hfp : (RepoFile.RepoFile qdirAbsolutePath info type B).getFilePath
          = x ++ '/' :: info.fileName := by
        show RepoFile.getRelativeFilename qdirAbsolutePath
          { FileInfo := info, Type_ := type, FilePath := [], Path := [] } B = _
        simp only [RepoFile.getRelativeFilename, hB, hfile]
        have h0 : QString.indexOf (B ++ c :: (x ++ '/' :: info.fileName)) B = 0 :=
          (indexOf_eq_zero_iff _ _).2 (List.prefix_append _ _)
        rw [h0, if_neg (by decide)]
        exact right_append_cons B c _
      have hp : (RepoFile.RepoFile qdirAbsolutePath info type B).getPath = x := by
        rw [hpathdef, ← hx]
        exact mid_append_cons B c x
      rw [hfp, hp]
      simp [RepoFile.getFilename, RepoFile.RepoFile]

/-- The workspace `/ws` and the file `/ws/sub/f.txt`: Path `sub`, FilePath
`sub/f.txt`. -/
theorem getPath_relative_directory_witness :
    RepoFile.ctorAssert sampleInfo "/ws".toList
    ∧ (RepoFile.RepoFile stripTrailingSeparator sampleInfo RepoFile.EntryType.TYPE_UNKNOWN
        "/ws".toList).getPath = "sub".toList
    ∧ (RepoFile.RepoFile stripTrailingSeparator sampleInfo RepoFile.EntryType.TYPE_UNKNOWN
        "/ws".toList).getFilePath
        = (RepoFile.RepoFile stripTrailingSeparator sampleInfo RepoFile.EntryType.TYPE_UNKNOWN
            "/ws".toList).getPath ++ "/".toList
          ++ (RepoFile.RepoFile stripTrailingSeparator sampleInfo
            RepoFile.EntryType.TYPE_UNKNOWN "/ws".toList).getFilename :=
  ⟨by decide,
    (getPath_relative_directory stripTrailingSeparator sampleInfo
      RepoFile.EntryType.TYPE_UNKNOWN "/ws".toList (by decide)).2.1 "sub".toList (by decide),
    (getPath_relative_directory stripTrailingSeparator sampleInfo
      RepoFile.EntryType.TYPE_UNKNOWN "/ws".toList (by decide)).2.2
        (by decide) (by decide) (by decide)⟩

/-- C5 at the workspace path `/ws/` and the file `/ws/sub/f.txt`: the path is a
prefix of the file's directory `/ws/sub` (the constructor's assertion holds) and
the file is not directly in it, yet the constructor stores the Path `ub`, which
is not the directory relative to the workspace, `sub`; the FilePath, which
`getRelativeFilename` computes from `QDir(path).absolutePath()` = `/ws`, is
`sub/f.txt`, and so it is not Path + "/" + file name. -/
theorem getPath_trailing_separator :
    RepoFile.ctorAssert sampleInfo "/ws/".toList
    ∧ sampleInfo.absolutePath ≠ "/ws/".toList
    ∧ sampleInfo.absolutePath = "/ws/".toList ++ "sub".toList
    ∧ (RepoFile.RepoFile stripTrailingSeparator sampleInfo RepoFile.EntryType.TYPE_UNKNOWN
        "/ws/".toList).getPath = "ub".toList
    ∧ (RepoFile.RepoFile stripTrailingSeparator sampleInfo RepoFile.EntryType.TYPE_UNKNOWN
        "/ws/".toList).getFilePath = "sub/f.txt".toList
    ∧ (RepoFile.RepoFile stripTrailingSeparator sampleInfo RepoFile.EntryType.TYPE_UNKNOWN
        "/ws/".toList).getFilePath
        ≠ (RepoFile.RepoFile stripTrailingSeparator sampleInfo RepoFile.EntryType.TYPE_UNKNOWN
            "/ws/".toList).getPath ++ "/".toList
          ++ (RepoFile.RepoFile stripTrailingSeparator sampleInfo
            RepoFile.EntryType.TYPE_UNKNOWN "/ws/".toList).getFilename := by
  decide

/-- C8 at the file `/home/ws/a.txt` and the base directory `/ws`: the base is not
a prefix of the file's absolute path, yet it occurs in it (at index 5), and
`getRelativeFilename` returns `e/ws/a.txt`, not the empty string. -/
theorem getRelativeFilename_not_under_base :
    ¬ ("/ws".toList <+: sampleOutsideInfo.absoluteFilePath)
    ∧ stripTrailingSeparator "/ws".toList = "/ws".toList
    ∧ sampleOutsideInfo.absoluteFilePath.indexOf "/ws".toList = 5
    ∧ (RepoFile.RepoFile stripTrailingSeparator sampleOutsideInfo
        RepoFile.EntryType.TYPE_UNKNOWN "/home/ws".toList).getRelativeFilename
          stripTrailingSeparator "/ws".toList = "e/ws/a.txt".toList := by
  decide

end Fuel

namespace Fuel

/-! ### The scan -/

/-- The entries of a map after `insert`. -/
theorem filemap_mem_insert (m : Workspace.filemap_t) (key : QString) (value : RepoFile)
    (e : QString × RepoFile) :
    e ∈ m.insert key value ↔ e = (key, value) ∨ (e ∈ m ∧ e.1 ≠ key) := by
  simp [Workspace.filemap_t.insert]

/-- A map with unique keys has unique keys after `insert`. -/
theorem filemap_nodup_insert (m : Workspace.filemap_t) (key : QString) (value : RepoFile)
    (h : (m.map Prod.fst).Nodup) : ((m.insert key value).map Prod.fst).Nodup := by
  simp only [Workspace.filemap_t.insert, List.map_cons, List.nodup_cons]
  constructor
  · intro hmem
    obtain ⟨e, he, hk⟩ := List.mem_map.1 hmem
    have hne := (List.mem_filter.1 he).2
    simp only [ne_eq, decide_eq_true_eq] at hne
    exact hne hk
  · exact (h.sublist (List.Sublist.map _ (List.filter_sublist _)))

/-- The file table after the entries `l` have been merged into the table `m`. -/
theorem scan_files_foldl (qdirAbsolutePath : QString → QString) (root : QString)
    (reported : QString → Option PrimitiveFlag) (ignored : QString → Bool)
    (ignoredFlag : PrimitiveFlag) (l : List QFileInfo) (ws : Workspace) :
    (l.foldl
      (fun ws info =>
        let rf := Workspace.fileRecord qdirAbsolutePath root reported ignored ignoredFlag info
        ({ workspaceFiles := ws.workspaceFiles.insert rf.getFilePath rf,
           pathSet := ws.pathSet.insert rf.getPath } : Workspace)) ws).workspaceFiles
    = l.foldl
      (fun m info =>
        m.insert
          (Workspace.fileRecord qdirAbsolutePath root reported ignored ignoredFlag info).getFilePath
          (Workspace.fileRecord qdirAbsolutePath root reported ignored ignoredFlag info))
      ws.workspaceFiles := by
  induction l generalizing ws with
  | nil => rfl
  | cons a l ih => simp only [List.foldl_cons]; rw [ih]

/-- Merging entries keeps the keys unique. -/
theorem merge_nodup (rec : QFileInfo → RepoFile) (l : List QFileInfo)
    (m : Workspace.filemap_t) (h : (m.map Prod.fst).Nodup) :
    ((l.foldl (fun m info => m.insert (rec info).getFilePath (rec info)) m).map
      Prod.fst).Nodup := by
  induction l generalizing m with
  | nil => exact h
  | cons a l ih => exact ih _ (filemap_nodup_insert m _ _ h)

/-- Every entry of the merged table was in the table before or is the record of a
merged file, under that record's relative path. -/
theorem merge_mem_origin (rec : QFileInfo → RepoFile) (l : List QFileInfo)
    (m : Workspace.filemap_t) (e : QString × RepoFile)
    (he : e ∈ l.foldl (fun m info => m.insert (rec info).getFilePath (rec info)) m) :
    e ∈ m ∨ ∃ info ∈ l, e = ((rec info).getFilePath, rec info) := by
  induction l generalizing m with
  | nil => exact Or.inl he
  | cons a l ih =>
    rcases ih _ he with h | ⟨info, hinfo, rfl⟩
    · rcases (filemap_mem_insert m _ _ e).1 h with h | h
      · exact Or.inr ⟨a, List.mem_cons_self _ _, h⟩
      · exact Or.inl h.1
    · exact Or.inr ⟨info, List.mem_cons_of_mem _ hinfo, rfl⟩

/-- A key of the table is still a key after the merge. -/
theorem merge_key_persists (rec : QFileInfo → RepoFile) (l : List QFileInfo)
    (m : Workspace.filemap_t) (key : QString) (h : key ∈ m.map Prod.fst) :
    key ∈ (l.foldl (fun m info => m.insert (rec info).getFilePath (rec info)) m).map
      Prod.fst := by
  induction l generalizing m with
  | nil => exact h
  | cons a l ih =>
    apply ih
    obtain ⟨e, he, rfl⟩ := List.mem_map.1 h
    by_cases hk : e.1 = (rec a).getFilePath
    · exact List.mem_map.2 ⟨(_, rec a), (filemap_mem_insert m _ _ _).2 (Or.inl rfl), hk.symm⟩
    · exact List.mem_map.2 ⟨e, (filemap_mem_insert m _ _ _).2 (Or.inr ⟨he, hk⟩), rfl⟩

/-- The relative path of every merged file is a key of the merged table. -/
theorem merge_key_mem (rec : QFileInfo → RepoFile) (l : List QFileInfo)
    (m : Workspace.filemap_t) (info : QFileInfo) (h : info ∈ l) :
    (rec info).getFilePath ∈
      (l.foldl (fun m info => m.insert (rec info).getFilePath (rec info)) m).map Prod.fst := by
  induction l generalizing m with
  | nil => cases h
  | cons a l ih =>
    rcases List.mem_cons.1 h with rfl | h
    · rw [List.foldl_cons]
      apply merge_key_persists
      exact List.mem_map.2 ⟨(_, rec info), (filemap_mem_insert m _ _ _).2 (Or.inl rfl), rfl⟩
    · exact ih _ h

end Fuel

namespace Fuel

/-- The classification of a path is a primitive flag. -/
theorem classify_primitive (reported : QString → Option PrimitiveFlag)
    (ignored : QString → Bool) (ignoredFlag : PrimitiveFlag) (relative : QString) :
    Workspace.classify reported ignored ignoredFlag relative
      ∈ RepoFile.EntryType.primitives := by
  unfold Workspace.classify
  cases reported relative with
  | some status => exact status.property
  | none =>
    dsimp only
    split_ifs
    · exact ignoredFlag.property
    · decide

/-- In a table with unique keys, the entries under a key that is present are that
one entry. -/
theorem filemap_filter_key (m : Workspace.filemap_t) (key : QString) (value : RepoFile)
    (hnodup : (m.map Prod.fst).Nodup) (hmem : (key, value) ∈ m) :
    m.filter (fun e => decide (e.1 = key)) = [(key, value)] := by
  induction m with
  | nil => cases hmem
  | cons e m ih =>
    rw [List.map_cons, List.nodup_cons] at hnodup
    rcases List.mem_cons.1 hmem with h | h
    · subst h
      have hnone : m.filter (fun e => decide (e.1 = key)) = [] := by
        rw [List.filter_eq_nil_iff]
        intro e he hk
        simp only [decide_eq_true_eq] at hk
        exact hnodup.1 (List.mem_map.2 ⟨e, he, hk⟩)
      simp [List.filter_cons, hnone]
    · have hne : e.1 ≠ key := fun hk =>
        hnodup.1 (List.mem_map.2 ⟨(key, value), h, hk.symm⟩)
      simp [List.filter_cons, hne, ih hnodup.2 h]

/-- Where the scan modelled from the spec gives one entry per path: for a workspace
`root` and an enumerated file whose absolute path is the absolute directory
`QDir(root).absolutePath()`, a separator and `r`.  The file table has unique
keys, each entry is the record of an enumerated file under that file's relative
path, of a primitive type, and the table has exactly one entry with the key r;
its record has the relative path r and a type that is one of the eight primitive
flags (one bit set): the status the external tool reports for r when r is
tracked, and TYPE_UNKNOWN when r is not tracked and the ignore pattern does not
match it. -/
theorem scanWorkspace_one_entry_per_path (qdirAbsolutePath : QString → QString)
    (self : Workspace) (root : QString) (entries : List QFileInfo)
    (reported : QString → Option PrimitiveFlag) (ignored : QString → Bool)
    (ignoredFlag : PrimitiveFlag) (r : QString) (info : QFileInfo)
    (hmem : info ∈ entries)
    (hpath : info.absoluteFilePath = qdirAbsolutePath root ++ "/".toList ++ r) :
    ((self.scanWorkspace qdirAbsolutePath root entries reported ignored
        ignoredFlag).getFiles.map Prod.fst).Nodup
    ∧ (∀ e ∈ (self.scanWorkspace qdirAbsolutePath root entries reported ignored
        ignoredFlag).getFiles,
        ∃ info' ∈ entries,
          e.1 = (RepoFile.RepoFile qdirAbsolutePath info' RepoFile.EntryType.TYPE_UNKNOWN
            root).getRelativeFilename qdirAbsolutePath root
          ∧ e.2.getFileInfo = info' ∧ e.2.getFilePath = e.1
          ∧ e.2.getType ∈ RepoFile.EntryType.primitives)
    ∧ ∃ rf : RepoFile,
        (self.scanWorkspace qdirAbsolutePath root entries reported ignored
          ignoredFlag).getFiles.filter (fun e => decide (e.1 = r)) = [(r, rf)]
        ∧
        (r, rf) ∈ (self.scanWorkspace qdirAbsolutePath root entries reported ignored
          ignoredFlag).getFiles
        ∧ rf.getFilePath = r
        ∧ rf.getType ∈ RepoFile.EntryType.primitives
        ∧ (bitsSet rf.getType.val).length = 1
        ∧ (∀ status, reported r = some status → rf.getType = status.val)
        ∧ (reported r = none → ignored r = false →
            rf.getType = RepoFile.EntryType.TYPE_UNKNOWN) := by
  have hfiles : (self.scanWorkspace qdirAbsolutePath root entries reported ignored
      ignoredFlag).getFiles
      = entries.foldl
        (fun (m : Workspace.filemap_t) info =>
          m.insert
            (Workspace.fileRecord qdirAbsolutePath root reported ignored ignoredFlag
              info).getFilePath
            (Workspace.fileRecord qdirAbsolutePath root reported ignored ignoredFlag info))
        [] := by
    unfold Workspace.scanWorkspace Workspace.getFiles
    rw [scan_files_foldl]
    rfl
  rw [hfiles]
  have hnodup := merge_nodup
    (Workspace.fileRecord qdirAbsolutePath root reported ignored ignoredFlag) entries []
    List.nodup_nil
  have horigin := fun e he => (merge_mem_origin
    (Workspace.fileRecord qdirAbsolutePath root reported ignored ignoredFlag) entries [] e
    he).resolve_left (List.not_mem_nil e)
  have hkey : (Workspace.fileRecord qdirAbsolutePath root reported ignored ignoredFlag
      info).getFilePath = r :=
    getRelativeFilename_append_absolute qdirAbsolutePath root r _ (by
      show info.absoluteFilePath = _
      rw [hpath]; simp)
  have hin := merge_key_mem
    (Workspace.fileRecord qdirAbsolutePath root reported ignored ignoredFlag) entries [] info
    hmem
  rw [hkey] at hin
  refine ⟨hnodup, ?_, ?_⟩
  · intro e he
    obtain ⟨info', hinfo', rfl⟩ := horigin e he
    exact ⟨info', hinfo', rfl, rfl, rfl, classify_primitive reported ignored ignoredFlag _⟩
  · obtain ⟨e, he, her⟩ := List.mem_map.1 hin
    obtain ⟨info', hinfo', rfl⟩ := horigin e he
    have hr : (Workspace.fileRecord qdirAbsolutePath root reported ignored ignoredFlag
        info').getFilePath = r := her
    have htype : (Workspace.fileRecord qdirAbsolutePath root reported ignored ignoredFlag
        info').getType = Workspace.classify reported ignored ignoredFlag r := by
      rw [← hr]; rfl
    have hprim := classify_primitive reported ignored ignoredFlag r
    have he' : (r, Workspace.fileRecord qdirAbsolutePath root reported ignored ignoredFlag
        info') ∈ _ := hr ▸ he
    refine ⟨Workspace.fileRecord qdirAbsolutePath root reported ignored ignoredFlag info',
      filemap_filter_key _ r _ hnodup he', he', hr, ?_, ?_, ?_, ?_⟩
    · rw [htype]; exact hprim
    · rw [htype]; exact (EntryType_primitive_iff_single_bit _).1 hprim
    · intro status hs
      rw [htype]; simp [Workspace.classify, hs]
    · intro hnone hign
      rw [htype]; simp [Workspace.classify, hnone, hign]

/-- The workspace `/ws/` (which `QDir` turns into `/ws`) with the files
`/ws/sub/f.txt` (reported as edited) and `/ws/top.txt` (not tracked, not
ignored): one entry for each, under its relative path. -/
theorem scanWorkspace_one_entry_per_path_witness :
    sampleTopInfo ∈ [sampleInfo, sampleTopInfo]
    ∧ sampleTopInfo.absoluteFilePath
        = stripTrailingSeparator "/ws/".toList ++ "/".toList ++ "top.txt".toList
    ∧ ((Workspace.scanWorkspace stripTrailingSeparator ⟨[], []⟩ "/ws/".toList
        [sampleInfo, sampleTopInfo] sampleReported sampleIgnored
        ⟨RepoFile.EntryType.TYPE_UNKNOWN, by decide⟩).getFiles.map Prod.fst).Nodup
    ∧ (Workspace.scanWorkspace stripTrailingSeparator ⟨[], []⟩ "/ws/".toList
        [sampleInfo, sampleTopInfo] sampleReported sampleIgnored
        ⟨RepoFile.EntryType.TYPE_UNKNOWN, by decide⟩).getFiles.map
          (fun e => (e.1, e.2.getType))
        = [("top.txt".toList, RepoFile.EntryType.TYPE_UNKNOWN),
            ("sub/f.txt".toList, RepoFile.EntryType.TYPE_EDITTED)] :=
  ⟨by decide, by decide,
    (scanWorkspace_one_entry_per_path stripTrailingSeparator ⟨[], []⟩ "/ws/".toList
      [sampleInfo, sampleTopInfo] sampleReported sampleIgnored
      ⟨RepoFile.EntryType.TYPE_UNKNOWN, by decide⟩ "top.txt".toList sampleTopInfo
      (by decide) (by decide)).1,
    by decide⟩

/-- C1 at the workspace root `/` with the files `/a.txt` and `/b.txt` (neither
tracked nor ignored): `QDir("/").absolutePath()` is `/`, the constructor's
assertion holds for both files, and `getRelativeFilename`, which drops the
length of the base and one more code unit, gives both the relative path `.txt`
instead of `a.txt` and `b.txt`.  The file table of the scan modelled from the
spec, keyed by that relative path, then holds one entry, under `.txt`, for the
two files, and none under `a.txt` or `b.txt`. -/
theorem scanWorkspace_root_directory :
    stripTrailingSeparator "/".toList = "/".toList
    ∧ RepoFile.ctorAssert sampleRootAInfo "/".toList
    ∧ RepoFile.ctorAssert sampleRootBInfo "/".toList
    ∧ (RepoFile.RepoFile stripTrailingSeparator sampleRootAInfo
        RepoFile.EntryType.TYPE_UNKNOWN "/".toList).getFilePath = ".txt".toList
    ∧ (RepoFile.RepoFile stripTrailingSeparator sampleRootBInfo
        RepoFile.EntryType.TYPE_UNKNOWN "/".toList).getFilePath = ".txt".toList
    ∧ (Workspace.scanWorkspace stripTrailingSeparator ⟨[], []⟩ "/".toList
        [sampleRootAInfo, sampleRootBInfo] (fun _ => none) sampleIgnored
        ⟨RepoFile.EntryType.TYPE_UNKNOWN, by decide⟩).getFiles.map Prod.fst
        = [".txt".toList]
    ∧ ((Workspace.scanWorkspace stripTrailingSeparator ⟨[], []⟩ "/".toList
        [sampleRootAInfo, sampleRootBInfo] (fun _ => none) sampleIgnored
        ⟨RepoFile.EntryType.TYPE_UNKNOWN, by decide⟩).getFiles.filter
          (fun e => decide (e.1 = "a.txt".toList))).length = 0
    ∧ ((Workspace.scanWorkspace stripTrailingSeparator ⟨[], []⟩ "/".toList
        [sampleRootAInfo, sampleRootBInfo] (fun _ => none) sampleIgnored
        ⟨RepoFile.EntryType.TYPE_UNKNOWN, by decide⟩).getFiles.filter
          (fun e => decide (e.1 = "b.txt".toList))).length = 0 := by
  decide

end Fuel
